import Mathlib

/-!
Verification of the TLS session-crypto layer of scapy-ssl_tls
(scapy_ssl_tls/ssl_tls_crypto.py): the PRF engine, key derivation and
key-block slicing, the cipher-suite registry sizing rules, per-mode record
framing (stream, CBC, GCM) and the per-direction crypto contexts, shallowly
embedded over byte lists.
-/

/-- Byte strings are modelled as lists of naturals, each the value of one byte. -/
abbrev Bytes := List Nat

/-- ASCII bytes of a label string, such as the PRF label constants of the source. -/
def strBytes (s : String) : Bytes := s.toList.map Char.toNat

/-- Big-endian 8-byte encoding: the embedding of struct.pack of an unsigned long long. -/
def packQ (n : Nat) : Bytes :=
  [n / 2 ^ 56 % 256, n / 2 ^ 48 % 256, n / 2 ^ 40 % 256, n / 2 ^ 32 % 256,
   n / 2 ^ 24 % 256, n / 2 ^ 16 % 256, n / 2 ^ 8 % 256, n % 256]

/-- Big-endian 4-byte encoding: the embedding of struct.pack of an unsigned int. -/
def packI (n : Nat) : Bytes := [n / 2 ^ 24 % 256, n / 2 ^ 16 % 256, n / 2 ^ 8 % 256, n % 256]

/-- Big-endian 2-byte encoding: the embedding of struct.pack of an unsigned short. -/
def packH (n : Nat) : Bytes := [n / 2 ^ 8 % 256, n % 256]

/-- Big-endian decoding of a byte string: the embedding of struct.unpack of an unsigned long long. -/
def unpackQ (b : Bytes) : Nat := b.foldl (fun acc x => acc * 256 + x) 0

/-- Modelled from the spec: the TLS wire version constants (module ssl_tls is not
under src); only their ordering is used by the embedded code. -/
def TLSVersion.SSL_3_0 : Nat := 0x0300

/-- Modelled from the spec: TLS 1.0 wire version. -/
def TLSVersion.TLS_1_0 : Nat := 0x0301

/-- Modelled from the spec: TLS 1.1 wire version. -/
def TLSVersion.TLS_1_1 : Nat := 0x0302

/-- Modelled from the spec: TLS 1.2 wire version. -/
def TLSVersion.TLS_1_2 : Nat := 0x0303

/-- Modelled from the spec: the set of known TLS versions accepted by the TLSPRF
constructor (keys of tls.TLS_VERSIONS in the missing module ssl_tls). -/
def TLS_VERSIONS : List Nat :=
  [TLSVersion.SSL_3_0, TLSVersion.TLS_1_0, TLSVersion.TLS_1_1, TLSVersion.TLS_1_2]

/-- Abstract keyed digest interface standing for HMAC of the external crypto
library: first argument the key, second the message. -/
abbrev Hmac := Bytes → Bytes → Bytes

/-- Loop of TLSPRF._get_bytes: while fewer than numBytes bytes were produced,
append HMAC(key, block, label, random) and advance block to HMAC(key, block).
Fuel bounds the iteration; numBytes steps suffice whenever the digest yields at
least one byte per call, which is exactly the condition under which the source
while-loop terminates. -/
def prfLoop (hmac : Hmac) (key labelRandom : Bytes) : Nat → Bytes → Bytes → Nat → Bytes
  | 0, _, acc, _ => acc
  | fuel + 1, block, acc, numBytes =>
    if acc.length < numBytes then
      prfLoop hmac key labelRandom fuel (hmac key block)
        (acc ++ hmac key (block ++ labelRandom)) numBytes
    else acc

/-- TLSPRF._get_bytes: the single-digest P_hash expansion, truncated to numBytes. -/
def TLSPRF._get_bytes (hmac : Hmac) (key label random : Bytes) (numBytes : Nat) : Bytes :=
  (prfLoop hmac key (label ++ random) numBytes (hmac key (label ++ random)) [] numBytes).take
    numBytes

/-- TLSPRF.get_bytes: for TLS 1.2 and above the single-digest expansion with the
negotiated PRF digest; below that, the byte-wise XOR of an MD5 expansion keyed
with the first half of the secret and a SHA-1 expansion keyed with the last
half, the halves overlapping in the middle byte for odd secret lengths. -/
def TLSPRF.get_bytes (tlsVersion : Nat) (hmacDigest hmacMD5 hmacSHA1 : Hmac)
    (key label random : Bytes) (numBytes : Nat) : Bytes :=
  if TLSVersion.TLS_1_2 ≤ tlsVersion then
    TLSPRF._get_bytes hmacDigest key label random numBytes
  else
    let keyLen := (key.length + 1) / 2
    let keyLeft := key.take keyLen
    let keyRight := key.drop (key.length - keyLen)
    let md5Bytes := TLSPRF._get_bytes hmacMD5 keyLeft label random numBytes
    let sha1Bytes := TLSPRF._get_bytes hmacSHA1 keyRight label random numBytes
    List.zipWith (fun a b => Nat.xor a b) md5Bytes sha1Bytes

/-- A-chain of the P_hash expansion as the specification states it: A(0) is the
raw label and seed, A(i+1) = HMAC(secret, A(i)). -/
def pHashA (hmac : Hmac) (key labelSeed : Bytes) : Nat → Bytes
  | 0 => labelSeed
  | i + 1 => hmac key (pHashA hmac key labelSeed i)

/-- Concatenation of the first n P_hash chunks of the specification, where chunk
number i is HMAC(secret, A(i), label, seed) for i from 1 to n. -/
def pHashChunks (hmac : Hmac) (key labelSeed : Bytes) (n : Nat) : Bytes :=
  (List.range n).flatMap (fun i => hmac key (pHashA hmac key labelSeed (i + 1) ++ labelSeed))

/-- P_hash expansion in the closed form of the specification: enough chunks
concatenated, truncated to numBytes. -/
def pHashSpec (hmac : Hmac) (key labelSeed : Bytes) (numBytes : Nat) : Bytes :=
  (pHashChunks hmac key labelSeed numBytes).take numBytes

/-- Symmetric cipher implementations referenced by the registry. -/
inductive CipherAlg
  | NullCipher | ARC4 | ARC2 | DES | DES3 | AES
  deriving DecidableEq

/-- Block sizes of the cipher implementations: PyCrypto constants for the
library ciphers, and zero for NullCipher, which the source defines itself. -/
def CipherAlg.block_size : CipherAlg → Nat
  | .NullCipher => 0
  | .ARC4 => 1
  | .ARC2 => 8
  | .DES => 8
  | .DES3 => 8
  | .AES => 16

/-- Hash implementations referenced by the registry. -/
inductive HashAlg
  | NullHash | MD5 | SHA | SHA256 | SHA384
  deriving DecidableEq

/-- Digest sizes: PyCrypto constants for the library hashes, zero for NullHash,
which the source defines itself. -/
def HashAlg.digest_size : HashAlg → Nat
  | .NullHash => 0
  | .MD5 => 16
  | .SHA => 20
  | .SHA256 => 32
  | .SHA384 => 48

/-- Cipher mode names of the CipherMode class. -/
inductive CipherMode
  | NULL | STREAM | CBC | GCM
  deriving DecidableEq

/-- Key-exchange algorithm tags of the registry. -/
inductive KexAlg
  | RSA | DHE | ECDHE
  deriving DecidableEq

/-- Signature algorithm tags of the registry. -/
inductive SigAlg
  | RSA | DSA | ECDSA
  deriving DecidableEq

/-- Key-exchange field of a registry entry. -/
structure KexParams where
  type : KexAlg
  sig : Option SigAlg
  deriving DecidableEq

/-- Cipher field of a registry entry. -/
structure CipherParams where
  type : CipherAlg
  key_len : Nat
  mode_name : CipherMode
  deriving DecidableEq

/-- One entry of TLSSecurityParameters.crypto_params. -/
structure CryptoParamEntry where
  suite : Nat
  export_grade : Bool
  key_exchange : KexParams
  cipher : CipherParams
  hash : HashAlg
  prf : Option HashAlg
  deriving DecidableEq

/-- TLSSecurityParameters.crypto_params: the static cipher-suite registry. -/
def crypto_params : List CryptoParamEntry := [
  ⟨0x0000, false, ⟨.RSA, none⟩, ⟨.NullCipher, 0, .CBC⟩, .NullHash, none⟩,
  ⟨0x0001, false, ⟨.RSA, none⟩, ⟨.NullCipher, 0, .CBC⟩, .MD5, none⟩,
  ⟨0x0002, false, ⟨.RSA, none⟩, ⟨.NullCipher, 0, .CBC⟩, .SHA, none⟩,
  ⟨0x0003, true, ⟨.RSA, none⟩, ⟨.ARC4, 5, .STREAM⟩, .MD5, none⟩,
  ⟨0x0004, false, ⟨.RSA, none⟩, ⟨.ARC4, 16, .STREAM⟩, .MD5, none⟩,
  ⟨0x0005, false, ⟨.RSA, none⟩, ⟨.ARC4, 16, .STREAM⟩, .SHA, none⟩,
  ⟨0x0006, true, ⟨.RSA, none⟩, ⟨.ARC2, 5, .CBC⟩, .MD5, none⟩,
  ⟨0x0008, true, ⟨.RSA, none⟩, ⟨.DES, 5, .CBC⟩, .SHA, none⟩,
  ⟨0x0009, false, ⟨.RSA, none⟩, ⟨.DES, 8, .CBC⟩, .SHA, none⟩,
  ⟨0x000a, false, ⟨.RSA, none⟩, ⟨.DES3, 24, .CBC⟩, .SHA, none⟩,
  ⟨0x002f, false, ⟨.RSA, none⟩, ⟨.AES, 16, .CBC⟩, .SHA, none⟩,
  ⟨0x0035, false, ⟨.RSA, none⟩, ⟨.AES, 32, .CBC⟩, .SHA, none⟩,
  ⟨0x003b, false, ⟨.RSA, none⟩, ⟨.NullCipher, 0, .CBC⟩, .SHA256, none⟩,
  ⟨0x0060, true, ⟨.RSA, none⟩, ⟨.ARC4, 8, .STREAM⟩, .MD5, none⟩,
  ⟨0x0061, true, ⟨.RSA, none⟩, ⟨.ARC2, 8, .CBC⟩, .MD5, none⟩,
  ⟨0x0062, true, ⟨.RSA, none⟩, ⟨.DES, 8, .CBC⟩, .SHA, none⟩,
  ⟨0x0064, true, ⟨.RSA, none⟩, ⟨.ARC4, 8, .STREAM⟩, .SHA, none⟩,
  ⟨0x0011, true, ⟨.DHE, some .DSA⟩, ⟨.DES, 5, .CBC⟩, .SHA, none⟩,
  ⟨0x0012, false, ⟨.DHE, some .DSA⟩, ⟨.DES, 8, .CBC⟩, .SHA, none⟩,
  ⟨0x0013, false, ⟨.DHE, some .DSA⟩, ⟨.DES3, 24, .CBC⟩, .SHA, none⟩,
  ⟨0x0014, true, ⟨.DHE, some .RSA⟩, ⟨.DES, 5, .CBC⟩, .SHA, none⟩,
  ⟨0x0015, false, ⟨.DHE, some .RSA⟩, ⟨.DES, 8, .CBC⟩, .SHA, none⟩,
  ⟨0x0016, false, ⟨.DHE, some .RSA⟩, ⟨.DES3, 24, .CBC⟩, .SHA, none⟩,
  ⟨0x0032, false, ⟨.DHE, some .DSA⟩, ⟨.AES, 16, .CBC⟩, .SHA, none⟩,
  ⟨0x0033, false, ⟨.DHE, some .RSA⟩, ⟨.AES, 16, .CBC⟩, .SHA, none⟩,
  ⟨0x0038, false, ⟨.DHE, some .DSA⟩, ⟨.AES, 32, .CBC⟩, .SHA, none⟩,
  ⟨0x0039, false, ⟨.DHE, some .RSA⟩, ⟨.AES, 32, .CBC⟩, .SHA, none⟩,
  ⟨0x0063, true, ⟨.DHE, some .DSA⟩, ⟨.DES, 8, .CBC⟩, .SHA, none⟩,
  ⟨0x0065, true, ⟨.DHE, some .DSA⟩, ⟨.ARC4, 8, .STREAM⟩, .SHA, none⟩,
  ⟨0x0066, false, ⟨.DHE, some .DSA⟩, ⟨.ARC4, 16, .STREAM⟩, .SHA, none⟩,
  ⟨0xc006, false, ⟨.ECDHE, some .ECDSA⟩, ⟨.NullCipher, 0, .CBC⟩, .SHA, none⟩,
  ⟨0xc007, false, ⟨.ECDHE, some .ECDSA⟩, ⟨.ARC4, 16, .STREAM⟩, .SHA, none⟩,
  ⟨0xc008, false, ⟨.ECDHE, some .ECDSA⟩, ⟨.DES3, 8, .CBC⟩, .SHA, none⟩,
  ⟨0xc009, false, ⟨.ECDHE, some .ECDSA⟩, ⟨.AES, 16, .CBC⟩, .SHA, none⟩,
  ⟨0xc00a, false, ⟨.ECDHE, some .ECDSA⟩, ⟨.AES, 32, .CBC⟩, .SHA, none⟩,
  ⟨0xc010, false, ⟨.ECDHE, some .RSA⟩, ⟨.NullCipher, 0, .CBC⟩, .SHA, none⟩,
  ⟨0xc011, false, ⟨.ECDHE, some .RSA⟩, ⟨.ARC4, 16, .STREAM⟩, .SHA, none⟩,
  ⟨0xc012, false, ⟨.ECDHE, some .RSA⟩, ⟨.DES3, 8, .CBC⟩, .SHA, none⟩,
  ⟨0xc013, false, ⟨.ECDHE, some .RSA⟩, ⟨.AES, 16, .CBC⟩, .SHA, none⟩,
  ⟨0xc014, false, ⟨.ECDHE, some .RSA⟩, ⟨.AES, 32, .CBC⟩, .SHA, none⟩,
  ⟨0xc023, false, ⟨.ECDHE, some .ECDSA⟩, ⟨.AES, 16, .CBC⟩, .SHA256, none⟩,
  ⟨0xc024, false, ⟨.ECDHE, some .ECDSA⟩, ⟨.AES, 32, .CBC⟩, .SHA384, none⟩,
  ⟨0xc027, false, ⟨.ECDHE, some .RSA⟩, ⟨.AES, 16, .CBC⟩, .SHA256, none⟩,
  ⟨0xc028, false, ⟨.ECDHE, some .RSA⟩, ⟨.AES, 16, .CBC⟩, .SHA384, none⟩,
  ⟨0xc02b, false, ⟨.ECDHE, some .ECDSA⟩, ⟨.AES, 16, .GCM⟩, .NullHash, some .SHA256⟩,
  ⟨0xc02c, false, ⟨.ECDHE, some .ECDSA⟩, ⟨.AES, 32, .GCM⟩, .NullHash, some .SHA384⟩,
  ⟨0xc030, false, ⟨.ECDHE, some .RSA⟩, ⟨.AES, 32, .GCM⟩, .NullHash, some .SHA384⟩]

/-- TLSSecurityParameters.__set_sec_param_sizes: MAC key length, IV length and
cipher key length derived from a registry entry; any mode outside GCM, CBC and
STREAM raises a ValueError, modelled as none. -/
def set_sec_param_sizes (e : CryptoParamEntry) : Option (Nat × Nat × Nat) :=
  match e.cipher.mode_name with
  | .GCM => some (0, 4, e.cipher.key_len)
  | .CBC => some (e.hash.digest_size, e.cipher.type.block_size, e.cipher.key_len)
  | .STREAM => some (e.hash.digest_size, 0, e.cipher.key_len)
  | .NULL => none

/-- Abstract PRF interface as stored on TLSSecurityParameters: secret, label,
seed and requested byte count. -/
abbrev PrfFn := Bytes → Bytes → Bytes → Nat → Bytes

/-- PRF label TLSPRF.TLS_MD_MASTER_SECRET_CONST. -/
def TLS_MD_MASTER_SECRET_CONST : Bytes := strBytes ("master secret")

/-- PRF label TLSPRF.TLS_MD_KEY_EXPANSION_CONST. -/
def TLS_MD_KEY_EXPANSION_CONST : Bytes := strBytes ("key expansion")

/-- Derivation-relevant state of a TLSSecurityParameters instance: the PRF and
the three sizes fixed by __set_sec_param_sizes. -/
structure TLSSecurityParameters where
  prf : PrfFn
  mac_key_length : Nat
  cipher_key_length : Nat
  iv_length : Nat

/-- TLSSecurityParameters.generate_master_secret. -/
def TLSSecurityParameters.generate_master_secret (sp : TLSSecurityParameters)
    (pms client_random server_random : Bytes) : Bytes :=
  sp.prf pms TLS_MD_MASTER_SECRET_CONST (client_random ++ server_random) 48

/-- The six key-material slices produced by TLSSecurityParameters.__init_key_material. -/
structure KeyMaterial where
  client_mac_key : Bytes
  server_mac_key : Bytes
  client_key : Bytes
  server_key : Bytes
  client_iv : Bytes
  server_iv : Bytes
  deriving DecidableEq

/-- TLSSecurityParameters.__init_key_material: successive slices of the key
block, in the order client MAC key, server MAC key, client cipher key, server
cipher key, client IV, server IV. -/
def TLSSecurityParameters.init_key_material (sp : TLSSecurityParameters) (data : Bytes) :
    KeyMaterial :=
  let m := sp.mac_key_length
  let k := sp.cipher_key_length
  let v := sp.iv_length
  { client_mac_key := (data.drop 0).take m
    server_mac_key := (data.drop m).take m
    client_key := (data.drop (m + m)).take k
    server_key := (data.drop (m + m + k)).take k
    client_iv := (data.drop (m + m + k + k)).take v
    server_iv := (data.drop (m + m + k + k + v)).take v }

/-- TLSSecurityParameters.init_keys: the key-expansion block, note the reversed
random order, sliced by __init_key_material. -/
def TLSSecurityParameters.init_keys (sp : TLSSecurityParameters)
    (client_random server_random master_secret : Bytes) : KeyMaterial :=
  let key_block := sp.prf master_secret TLS_MD_KEY_EXPANSION_CONST
    (server_random ++ client_random)
    (2 * (sp.mac_key_length + sp.cipher_key_length + sp.iv_length))
  sp.init_key_material key_block

/-- Modelled from the spec: the pkcs7.PKCS7Encoder.get_padding helper used by
CBCCryptoContainer (module pkcs7 of this repository is not under src). The spec
states the padding fills the data up to a whole number of blocks and every
padding byte equals the padding length. -/
def pkcs7_get_padding (block_size : Nat) (data : Bytes) : Bytes :=
  let pad_len := (block_size - data.length % block_size) % block_size
  List.replicate pad_len pad_len

/-- Fields of a CBCCryptoContainer after construction. -/
structure CBCCryptoContainer where
  explicit_iv : Bytes
  data : Bytes
  mac : Bytes
  padding : Bytes
  padding_len : Bytes
  deriving DecidableEq

/-- CBCCryptoContainer.__init__ with the MAC already computed: padding is taken
over data, MAC and one dummy byte, which accounts for the trailing
padding-length byte; padding_len is the explicit padding-length byte. -/
def CBCCryptoContainer.make (block_size : Nat) (explicit_iv data mac : Bytes) :
    CBCCryptoContainer :=
  let padding := pkcs7_get_padding block_size (data ++ mac ++ [0xff])
  { explicit_iv := explicit_iv, data := data, mac := mac, padding := padding,
    padding_len := [padding.length] }

/-- CBCCryptoContainer.__str__: explicit IV, data, MAC, padding, padding-length byte. -/
def CBCCryptoContainer.toBytes (c : CBCCryptoContainer) : Bytes :=
  c.explicit_iv ++ c.data ++ c.mac ++ c.padding ++ c.padding_len

/-- Record-MAC input of the stream and CBC containers: sequence number, content
type, version and data length, then the data. -/
def macInput (sequence content_type version data_len : Nat) (data : Bytes) : Bytes :=
  packQ sequence ++ [content_type % 256] ++ packH version ++ packH data_len ++ data

/-- Counter state of a per-direction TLSContext together with its symmetric
keystore fields read by the crypto contexts. -/
structure TLSContext where
  sequence : Nat
  nonce : Nat
  symKey : Bytes
  symIv : Bytes
  hmacKey : Bytes
  deriving DecidableEq

/-- TLSContext.__init__: both the record sequence number and the explicit nonce
counter start at zero. -/
def TLSContext.new (key iv hmacKey : Bytes) : TLSContext :=
  { sequence := 0, nonce := 0, symKey := key, symIv := iv, hmacKey := hmacKey }

/-- Stream cipher instance, modelled as a keystream with a current position: the
RC4-style cipher objects of the source keep their keystream state across calls. -/
structure StreamCipherState where
  ks : Nat → Nat
  pos : Nat

/-- Application of the stream cipher to a byte string: XOR against the keystream
from the current position, advancing the position. -/
def StreamCipherState.apply (c : StreamCipherState) (data : Bytes) :
    Bytes × StreamCipherState :=
  (data.mapIdx (fun i b => Nat.xor b (c.ks (c.pos + i))),
   { c with pos := c.pos + data.length })

/-- State of a StreamCryptoContext: both cipher instances were created once at
construction. -/
structure StreamCryptoContext where
  ctx : TLSContext
  enc_cipher : StreamCipherState
  dec_cipher : StreamCipherState

/-- StreamCryptoContext.encrypt: run the stream cipher over the framed container
bytes and advance the sequence number. -/
def StreamCryptoContext.encrypt (s : StreamCryptoContext) (container : Bytes) :
    Bytes × StreamCryptoContext :=
  let r := s.enc_cipher.apply container
  (r.1, { s with enc_cipher := r.2,
                 ctx := { s.ctx with sequence := s.ctx.sequence + 1 } })

/-- StreamCryptoContext.decrypt: run the stream cipher over the whole record and
advance the sequence number; nothing is verified and nothing is stripped. -/
def StreamCryptoContext.decrypt (s : StreamCryptoContext) (ciphertext : Bytes) :
    Bytes × StreamCryptoContext :=
  let r := s.dec_cipher.apply ciphertext
  (r.1, { s with dec_cipher := r.2,
                 ctx := { s.ctx with sequence := s.ctx.sequence + 1 } })

/-- Fueled splitting of a byte string into consecutive blocks of size B. -/
def toBlocksAux (B : Nat) : Nat → Bytes → List Bytes
  | 0, _ => []
  | fuel + 1, data =>
    if data = [] then [] else data.take B :: toBlocksAux B fuel (data.drop B)

/-- Split a byte string into blocks of the given size; the block-cipher objects
of the source consume whole blocks. The length of the data bounds the number of
blocks, so it serves as fuel. -/
def toBlocks (B : Nat) (data : Bytes) : List Bytes :=
  if B = 0 then [] else toBlocksAux B data.length data

/-- CBC encryption of a block sequence with a raw block cipher and a chaining
vector: each ciphertext block is the next chaining vector. -/
def cbcEncBlocks (encB : Bytes → Bytes) (iv : Bytes) : List Bytes → List Bytes
  | [] => []
  | p :: ps =>
    let c := encB (List.zipWith Nat.xor p iv)
    c :: cbcEncBlocks encB c ps

/-- CBC decryption of a block sequence: each plaintext block is the raw
decryption XORed with the previous ciphertext block, initially the chaining
vector. -/
def cbcDecBlocks (decB : Bytes → Bytes) (iv : Bytes) : List Bytes → List Bytes
  | [] => []
  | c :: cs => List.zipWith Nat.xor (decB c) iv :: cbcDecBlocks decB c cs

/-- State of a CBCCryptoContext: the chaining vector of each live cipher object,
or none while no cipher object has been created yet. -/
structure CBCCryptoContext where
  ctx : TLSContext
  requires_iv : Bool
  block_size : Nat
  enc_chain : Option Bytes
  dec_chain : Option Bytes

/-- CBCCryptoContext.__init_ciphers: fresh cipher objects chained from the
keystore IV, for both directions. -/
def CBCCryptoContext.init_ciphers (c : CBCCryptoContext) : CBCCryptoContext :=
  { c with enc_chain := some c.ctx.symIv, dec_chain := some c.ctx.symIv }

/-- CBCCryptoContext.__init__: with an explicit-IV version the keystore IV is
overwritten with the all-zero block and no cipher object is created yet;
otherwise the cipher objects are created once from the keystore IV. -/
def CBCCryptoContext.new (requires_iv : Bool) (block_size : Nat) (ctx : TLSContext) :
    CBCCryptoContext :=
  if requires_iv then
    { ctx := { ctx with symIv := List.replicate block_size 0 },
      requires_iv := requires_iv, block_size := block_size,
      enc_chain := none, dec_chain := none }
  else
    CBCCryptoContext.init_ciphers
      { ctx := ctx, requires_iv := requires_iv, block_size := block_size,
        enc_chain := none, dec_chain := none }

/-- CBCCryptoContext.encrypt: for explicit-IV versions the cipher objects are
first re-created from the keystore IV; the framed container bytes are CBC
encrypted and the sequence number advances. Using a cipher object that was never
created is none. -/
def CBCCryptoContext.encrypt (encB : Bytes → Bytes) (c : CBCCryptoContext)
    (container : Bytes) : Option (Bytes × CBCCryptoContext) :=
  let c := if c.requires_iv then c.init_ciphers else c
  match c.enc_chain with
  | none => none
  | some chain =>
    let blocks := cbcEncBlocks encB chain (toBlocks c.block_size container)
    some (blocks.flatten,
      { c with enc_chain := some (blocks.getLastD chain),
               ctx := { c.ctx with sequence := c.ctx.sequence + 1 } })

/-- CBCCryptoContext.decrypt: for explicit-IV versions the cipher objects are
first re-created from the keystore IV; the whole record is CBC decrypted and the
sequence number advances; no MAC and no padding check happens. -/
def CBCCryptoContext.decrypt (decB : Bytes → Bytes) (c : CBCCryptoContext)
    (ciphertext : Bytes) : Option (Bytes × CBCCryptoContext) :=
  let c := if c.requires_iv then c.init_ciphers else c
  match c.dec_chain with
  | none => none
  | some chain =>
    let blocks := toBlocks c.block_size ciphertext
    some ((cbcDecBlocks decB chain blocks).flatten,
      { c with dec_chain := some (blocks.getLastD chain),
               ctx := { c.ctx with sequence := c.ctx.sequence + 1 } })

/-- GCM additional authenticated data, GCMCryptoContainer.__aead: sequence
number, content type, version and data length. -/
def gcmAead (sequence content_type version data_len : Nat) : Bytes :=
  packQ sequence ++ [content_type % 256] ++ packH version ++ packH data_len

/-- GCM tag size, hardcoded in GCMCryptoContext.__init__. -/
def GCM_TAG_SIZE : Nat := 16

/-- GCM explicit nonce size, hardcoded in GCMCryptoContext.__init__. -/
def GCM_EXPLICIT_IV_SIZE : Nat := 8

/-- GCMCryptoContext.get_nonce: the keystore IV salt followed by the explicit
nonce, which defaults to the encoded local nonce counter. -/
def GCMCryptoContext.get_nonce (ctx : TLSContext) (nonce : Option Bytes) : Bytes :=
  ctx.symIv ++ nonce.getD (packQ ctx.nonce)

/-- Abstract AES-GCM primitive of the external crypto library: the keystream
transform in each direction and the authentication tag, all parameterized by key
and nonce. -/
structure GCMPrim where
  enc : Bytes → Bytes → Bytes → Bytes
  dec : Bytes → Bytes → Bytes → Bytes
  tag : Bytes → Bytes → Bytes → Bytes → Bytes

/-- GCMCryptoContext.encrypt over the container data (a GCM container serializes
to its plaintext): the wire record is explicit nonce, ciphertext, tag; both the
nonce counter and the sequence number advance. -/
def GCMCryptoContext.encrypt (p : GCMPrim) (version : Nat) (ctx : TLSContext)
    (data : Bytes) (content_type : Nat) : Bytes × TLSContext :=
  let nonce := GCMCryptoContext.get_nonce ctx none
  let aead := gcmAead ctx.sequence content_type version data.length
  let ciphertext := p.enc ctx.symKey nonce data
  let mac := p.tag ctx.symKey nonce aead ciphertext
  (packQ ctx.nonce ++ ciphertext ++ mac,
   { ctx with nonce := ctx.nonce + 1, sequence := ctx.sequence + 1 })

/-- Result of GCMCryptoContext.decrypt: the returned bytes, whether tag
verification succeeded (on failure the source only emits a warning and keeps
going), and the updated context. -/
structure GCMDecryptResult where
  output : Bytes
  tag_ok : Bool
  ctx : TLSContext
  deriving DecidableEq

/-- GCMCryptoContext.decrypt: split the record into explicit nonce, inner
ciphertext and tag; decrypt with the wire nonce; check the tag but only record
the outcome; resynchronize the local nonce counter from the wire value; return
the explicit nonce, cleartext and tag re-concatenated. -/
def GCMCryptoContext.decrypt (p : GCMPrim) (version : Nat) (ctx : TLSContext)
    (ciphertext : Bytes) (content_type : Nat) : GCMDecryptResult :=
  let explicit_nonce := ciphertext.take GCM_EXPLICIT_IV_SIZE
  let ct := (ciphertext.take (ciphertext.length - GCM_TAG_SIZE)).drop GCM_EXPLICIT_IV_SIZE
  let tag := ciphertext.drop (ciphertext.length - GCM_TAG_SIZE)
  let aead := gcmAead ctx.sequence content_type version ct.length
  let nonce := GCMCryptoContext.get_nonce ctx (some explicit_nonce)
  { output := explicit_nonce ++ p.dec ctx.symKey nonce ct ++ tag,
    tag_ok := p.tag ctx.symKey nonce aead ct == tag,
    ctx := { ctx with nonce := unpackQ explicit_nonce, sequence := ctx.sequence + 1 } }

/-- Iterated GCMCryptoContext.encrypt: the context after encrypting each record
of the list in order. -/
def GCMCryptoContext.encryptMany (p : GCMPrim) (version content_type : Nat)
    (ctx : TLSContext) : List Bytes → TLSContext
  | [] => ctx
  | d :: ds =>
    GCMCryptoContext.encryptMany p version content_type
      (GCMCryptoContext.encrypt p version ctx d content_type).2 ds

/-- Iterated StreamCryptoContext.encrypt: the context after encrypting each
record of the list in order. -/
def StreamCryptoContext.encryptMany (s : StreamCryptoContext) :
    List Bytes → StreamCryptoContext
  | [] => s
  | d :: ds => StreamCryptoContext.encryptMany (s.encrypt d).2 ds

/-- Registry lookup by cipher-suite id. -/
def crypto_params_lookup (suite : Nat) : Option CryptoParamEntry :=
  crypto_params.find? (fun e => e.suite == suite)

/-- Keys of TLSCompressionParameters.comp_params: NULL and DEFLATE. -/
def comp_params_defined (method : Nat) : Bool :=
  method == 0 || method == 1

/-- State carried by a constructed TLSPRF object. -/
structure TLSPRFHandle where
  tls_version : Nat
  digest : HashAlg
  deriving DecidableEq

/-- TLSPRF.__init__: rejects a version outside TLS_VERSIONS, rejects an explicit
digest below TLS 1.2, and defaults the digest to SHA-256. -/
def TLSPRF.make (tls_version : Nat) (digest : Option HashAlg) :
    Except String TLSPRFHandle :=
  if tls_version ∉ TLS_VERSIONS then
    .error ("ValueError: Unknown TLS version")
  else if tls_version < TLSVersion.TLS_1_2 ∧ digest ≠ none then
    .error ("ValueError: PRF digest can be set only for TLS versions 1.2 and above")
  else
    .ok { tls_version := tls_version, digest := digest.getD HashAlg.SHA256 }

/-- Fields of a ServerHello handshake message read by the handler. -/
structure ServerHello where
  version : Nat
  gmt_unix_time : Nat
  random_bytes : Bytes
  session_id : Bytes
  cipher_suite : Nat
  compression_method : Nat

/-- Negotiation state of a TLSSessionCtx touched by the ServerHello handler.
Warnings collect the messages of warnings.warn, the warn-and-continue channel. -/
structure SessionState where
  negotiated_version : Option Nat
  negotiated_ciphersuite : Option Nat
  negotiated_compression : Option Nat
  negotiated_key_exchange : Option KexAlg
  negotiated_sig : Option (Option SigAlg)
  negotiated_encryption : Option (CipherAlg × Nat × CipherMode)
  negotiated_mac : Option HashAlg
  requires_iv : Bool
  compression_set : Bool
  server_random : Option Bytes
  server_session_id : Option Bytes
  prf : Option TLSPRFHandle
  warnings : List String
  deriving DecidableEq

/-- Freshly constructed session: TLSSessionCtx.__init__ leaves every negotiated
field unset. -/
def initialSession : SessionState :=
  { negotiated_version := none, negotiated_ciphersuite := none,
    negotiated_compression := none, negotiated_key_exchange := none,
    negotiated_sig := none, negotiated_encryption := none, negotiated_mac := none,
    requires_iv := false, compression_set := false, server_random := none,
    server_session_id := none, prf := none, warnings := [] }

/-- TLSSessionCtx.__handle_server_hello for a non-resuming session: record the
server random and session id, fix the negotiated parameters, warn and continue
on an unknown compression method or cipher suite, then construct the PRF. The
PRF construction repeats the crypto_params lookup outside any exception handler,
so an unknown suite escapes as an uncaught KeyError, modelled as error. -/
def handle_server_hello (s : SessionState) (sh : ServerHello) :
    Except String SessionState :=
  let s0 := { s with
    server_random := some (packI sh.gmt_unix_time ++ sh.random_bytes),
    server_session_id := some sh.session_id,
    negotiated_version := some sh.version,
    requires_iv := decide (TLSVersion.TLS_1_0 < sh.version),
    negotiated_ciphersuite := some sh.cipher_suite,
    negotiated_compression := some sh.compression_method }
  let s1 :=
    if comp_params_defined sh.compression_method then
      { s0 with compression_set := true }
    else
      { s0 with warnings := s0.warnings ++
          [("Compression method not supported. Compression operations will fail")] }
  let s2 :=
    match crypto_params_lookup sh.cipher_suite with
    | some e =>
      { s1 with negotiated_key_exchange := some e.key_exchange.type,
                negotiated_sig := some e.key_exchange.sig,
                negotiated_encryption := some (e.cipher.type, e.cipher.key_len, e.cipher.mode_name),
                negotiated_mac := some e.hash }
    | none =>
      { s1 with warnings := s1.warnings ++
          [("Cipher not supported. Crypto operations will fail")] }
  match crypto_params_lookup sh.cipher_suite with
  | none => .error ("KeyError: ciphersuite missing from crypto_params")
  | some e =>
    match TLSPRF.make sh.version e.prf with
    | .error m => .error m
    | .ok h => .ok { s2 with prf := some h }

/-- Padding of length (B - n mod B) mod B tops n up to a multiple of B. -/
lemma pad_mod (B n : Nat) (hB : 0 < B) : (n + (B - n % B) % B) % B = 0 := by
  have hlt : n % B < B := Nat.mod_lt _ hB
  have hn := Nat.div_add_mod n B
  rcases Nat.eq_zero_or_pos (n % B) with h | h
  · have h0 : (B - n % B) % B = 0 := by rw [h, Nat.sub_zero, Nat.mod_self]
    rw [h0, Nat.add_zero]
    exact h
  · have h2 : (B - n % B) % B = B - n % B := Nat.mod_eq_of_lt (by omega)
    rw [h2]
    have h3 : n + (B - n % B) = B * (n / B) + B := by omega
    rw [h3]
    simp [Nat.add_mod, Nat.mul_mod_right]

/-- Claim C5: for a CBC-framed record with plaintext-plus-MAC length L and block
size B, the padding has length (B - (L+1) mod B) mod B, every padding byte
equals that value, the explicit padding-length byte follows the padding, and the
framed record length is a multiple of B. -/
theorem cbc_padding_spec (B : Nat) (iv data mac : Bytes) (hB : 0 < B)
    (hiv : iv.length % B = 0) :
    (CBCCryptoContainer.make B iv data mac).padding.length
      = (B - (data.length + mac.length + 1) % B) % B ∧
    (∀ b ∈ (CBCCryptoContainer.make B iv data mac).padding,
      b = (B - (data.length + mac.length + 1) % B) % B) ∧
    (CBCCryptoContainer.make B iv data mac).toBytes
      = iv ++ data ++ mac ++ (CBCCryptoContainer.make B iv data mac).padding
        ++ [(CBCCryptoContainer.make B iv data mac).padding.length] ∧
    (CBCCryptoContainer.make B iv data mac).toBytes.length % B = 0 := by
  have hlen : (data ++ mac ++ [0xff]).length = data.length + mac.length + 1 := by
    simp [List.length_append]
    omega
  refine ⟨?_, ?_, ?_, ?_⟩
  · simp only [CBCCryptoContainer.make, pkcs7_get_padding, hlen, List.length_replicate]
  · intro b hb
    simp only [CBCCryptoContainer.make, pkcs7_get_padding, hlen] at hb
    exact (List.eq_of_mem_replicate hb)
  · simp [CBCCryptoContainer.make, CBCCryptoContainer.toBytes, pkcs7_get_padding]
  · have hpad := pad_mod B (data.length + mac.length + 1) hB
    have h1 : (CBCCryptoContainer.make B iv data mac).toBytes.length
        = iv.length + (data.length + mac.length + 1
            + (B - (data.length + mac.length + 1) % B) % B) := by
      simp only [CBCCryptoContainer.make, CBCCryptoContainer.toBytes, pkcs7_get_padding,
        hlen, List.length_append, List.length_replicate, List.length_cons,
        List.length_nil]
      omega
    rw [h1, Nat.add_mod, hiv, hpad]
    simp

/-- Witness for cbc_padding_spec at block size 16 with a 3-byte plaintext and a
20-byte MAC. -/
theorem cbc_padding_spec_witness :
    (CBCCryptoContainer.make 16 [] [1, 2, 3] (List.replicate 20 7)).padding.length = 8 ∧
    (CBCCryptoContainer.make 16 [] [1, 2, 3] (List.replicate 20 7)).toBytes.length % 16 = 0 := by
  have h := cbc_padding_spec 16 [] [1, 2, 3] (List.replicate 20 7) (by decide) (by decide)
  refine ⟨?_, h.2.2.2⟩
  rw [h.1]
  decide

/-- Claim C4: for every registered cipher suite the derived sizes are exactly
those of the sizing table: GCM has MAC key length 0 and IV length 4, CBC has the
digest size and the cipher block size, STREAM has the digest size and IV length
0, and the cipher key length always comes from the descriptor. -/
theorem sec_param_sizes_by_mode :
    ∀ e ∈ crypto_params,
      (e.cipher.mode_name = CipherMode.GCM →
        set_sec_param_sizes e = some (0, 4, e.cipher.key_len)) ∧
      (e.cipher.mode_name = CipherMode.CBC →
        set_sec_param_sizes e
          = some (e.hash.digest_size, e.cipher.type.block_size, e.cipher.key_len)) ∧
      (e.cipher.mode_name = CipherMode.STREAM →
        set_sec_param_sizes e = some (e.hash.digest_size, 0, e.cipher.key_len)) ∧
      (set_sec_param_sizes e).isSome = true := by
  decide

/-- Witness for sec_param_sizes_by_mode at the AES-128-GCM suite 0xc02b. -/
theorem sec_param_sizes_by_mode_witness :
    set_sec_param_sizes
        ⟨0xc02b, false, ⟨.ECDHE, some .ECDSA⟩, ⟨.AES, 16, .GCM⟩, .NullHash, some .SHA256⟩
      = some (0, 4, 16) := by
  exact (sec_param_sizes_by_mode _ (by decide)).1 rfl

/-- Counterexample to claim C6: the record here carries the fresh random
explicit IV 1,1,1,1 as its first block, but the cipher is re-initialized from
the keystore IV, which CBCCryptoContext.new pinned to the all-zero block, so the
ciphertext differs from what re-initializing with the explicit IV would give. -/
theorem cbc_explicit_iv_reinit_counterexample :
    (CBCCryptoContext.encrypt (fun b => b)
        (CBCCryptoContext.new true 4 (TLSContext.new [] [] []))
        [1, 1, 1, 1, 2, 2, 2, 2]).map Prod.fst
      = some [1, 1, 1, 1, 3, 3, 3, 3] ∧
    (cbcEncBlocks (fun b => b) [1, 1, 1, 1]
        (toBlocks 4 [1, 1, 1, 1, 2, 2, 2, 2])).flatten
      = [0, 0, 0, 0, 2, 2, 2, 2] ∧
    ([1, 1, 1, 1, 3, 3, 3, 3] : Bytes) ≠ [0, 0, 0, 0, 2, 2, 2, 2] := by
  decide

/-- Claim C6 as amended: for TLS 1.1 and higher the CBC context re-initializes
both ciphers before every single encrypt and decrypt, but from the keystore IV,
which the constructor fixes to the all-zero block; the fresh random explicit IV
is carried as the first plaintext block of the container instead of being used
as the cipher-initialization IV. Chaining is still reset per record: the result
does not depend on the previous cipher state. -/
theorem cbc_explicit_iv_reinit_zero_iv :
    (∀ (B : Nat) (ctx : TLSContext),
      (CBCCryptoContext.new true B ctx).ctx.symIv = List.replicate B 0 ∧
      (CBCCryptoContext.new true B ctx).requires_iv = true) ∧
    (∀ (c : CBCCryptoContext) (encB : Bytes → Bytes) (s : Bytes),
      c.requires_iv = true →
      (CBCCryptoContext.encrypt encB c s).map Prod.fst
        = some ((cbcEncBlocks encB c.ctx.symIv (toBlocks c.block_size s)).flatten)) ∧
    (∀ (c : CBCCryptoContext) (decB : Bytes → Bytes) (t : Bytes),
      c.requires_iv = true →
      (CBCCryptoContext.decrypt decB c t).map Prod.fst
        = some ((cbcDecBlocks decB c.ctx.symIv (toBlocks c.block_size t)).flatten)) := by
  refine ⟨?_, ?_, ?_⟩
  · intro B ctx
    constructor <;> simp [CBCCryptoContext.new]
  · intro c encB s hr
    simp [CBCCryptoContext.encrypt, CBCCryptoContext.init_ciphers, hr]
  · intro c decB t hr
    simp [CBCCryptoContext.decrypt, CBCCryptoContext.init_ciphers, hr]

/-- Witness for cbc_explicit_iv_reinit_zero_iv on a freshly constructed
explicit-IV context with block size 4. -/
theorem cbc_explicit_iv_reinit_zero_iv_witness :
    (CBCCryptoContext.encrypt (fun b => b)
        (CBCCryptoContext.new true 4 (TLSContext.new [] [] []))
        [1, 1, 1, 1, 2, 2, 2, 2]).map Prod.fst
      = some ((cbcEncBlocks (fun b => b) (List.replicate 4 0)
          (toBlocks 4 [1, 1, 1, 1, 2, 2, 2, 2])).flatten) := by
  have h := cbc_explicit_iv_reinit_zero_iv.2.1
    (CBCCryptoContext.new true 4 (TLSContext.new [] [] [])) (fun b => b)
    [1, 1, 1, 1, 2, 2, 2, 2] (by decide)
  simpa using h

/-- Concrete instance of the abstract AES-GCM primitive used to evaluate the
GCM decrypt path: identity keystream and a tag that sums the ciphertext, so a
single flipped ciphertext bit changes the expected tag. -/
def gcmSumPrim : GCMPrim :=
  ⟨fun _ _ d => d, fun _ _ d => d,
   fun _ _ _ c => List.replicate 16 ((c.foldl (fun a b => a + b) 0) % 256)⟩

/-- Claim C1 evaluated at its failing input: encrypting the one-byte plaintext 5
yields the record nonce 0, ciphertext 5, tag of sixteen 5 bytes; flipping one
bit of the ciphertext (5 to 4) makes tag verification fail, yet decrypt still
returns the tampered record content as a normal result with the sequence number
advanced — a warning is the only signal, no error reaches the caller. -/
theorem gcm_tamper_warn_and_continue :
    (GCMCryptoContext.encrypt gcmSumPrim 0x0303 (TLSContext.new [] [9, 9, 9, 9] []) [5] 23).1
      = [0, 0, 0, 0, 0, 0, 0, 0] ++ [5] ++ List.replicate 16 5 ∧
    (GCMCryptoContext.decrypt gcmSumPrim 0x0303 (TLSContext.new [] [9, 9, 9, 9] [])
        ([0, 0, 0, 0, 0, 0, 0, 0] ++ [4] ++ List.replicate 16 5) 23).tag_ok = false ∧
    (GCMCryptoContext.decrypt gcmSumPrim 0x0303 (TLSContext.new [] [9, 9, 9, 9] [])
        ([0, 0, 0, 0, 0, 0, 0, 0] ++ [4] ++ List.replicate 16 5) 23).output
      = [0, 0, 0, 0, 0, 0, 0, 0] ++ [4] ++ List.replicate 16 5 ∧
    (GCMCryptoContext.decrypt gcmSumPrim 0x0303 (TLSContext.new [] [9, 9, 9, 9] [])
        ([0, 0, 0, 0, 0, 0, 0, 0] ++ [4] ++ List.replicate 16 5) 23).ctx.sequence = 1 := by
  decide

/-- Claim C8 evaluated at its failing input: suite 0x0007 has no registry entry;
the handler records the warn-and-continue intent for the guarded lookup, but the
unguarded registry lookup used to construct the PRF raises out of the handler. -/
theorem server_hello_unknown_suite_raises :
    crypto_params_lookup 0x0007 = none ∧
    handle_server_hello initialSession
        { version := TLSVersion.TLS_1_2, gmt_unix_time := 0,
          random_bytes := List.replicate 28 0, session_id := [],
          cipher_suite := 0x0007, compression_method := 0 }
      = .error ("KeyError: ciphersuite missing from crypto_params") := by
  exact ⟨rfl, rfl⟩

/-- A run of GCM encrypts advances both counters by the number of records. -/
lemma gcm_encryptMany_counters (p : GCMPrim) (version content_type : Nat) :
    ∀ (msgs : List Bytes) (ctx : TLSContext),
      (GCMCryptoContext.encryptMany p version content_type ctx msgs).sequence
        = ctx.sequence + msgs.length ∧
      (GCMCryptoContext.encryptMany p version content_type ctx msgs).nonce
        = ctx.nonce + msgs.length := by
  intro msgs
  induction msgs with
  | nil =>
    intro ctx
    simp [GCMCryptoContext.encryptMany]
  | cons d ds ih =>
    intro ctx
    have h := ih ((GCMCryptoContext.encrypt p version ctx d content_type).2)
    simp only [GCMCryptoContext.encryptMany]
    refine ⟨?_, ?_⟩
    · rw [h.1]
      simp [GCMCryptoContext.encrypt]
      omega
    · rw [h.2]
      simp [GCMCryptoContext.encrypt]
      omega

/-- A run of stream encrypts advances the sequence number by the number of records. -/
lemma stream_encryptMany_sequence :
    ∀ (msgs : List Bytes) (s : StreamCryptoContext),
      (StreamCryptoContext.encryptMany s msgs).ctx.sequence
        = s.ctx.sequence + msgs.length := by
  intro msgs
  induction msgs with
  | nil =>
    intro s
    simp [StreamCryptoContext.encryptMany]
  | cons d ds ih =>
    intro s
    have h := ih ((s.encrypt d).2)
    simp only [StreamCryptoContext.encryptMany]
    rw [h]
    simp [StreamCryptoContext.encrypt]
    omega

/-- Claim C7: from a freshly constructed per-direction context, with sequence
number and nonce counter zero, N encrypt operations leave the sequence number at
N, and for GCM the explicit nonce counter at N as well, no decrypt having
resynchronized it in between. -/
theorem sequence_nonce_monotonicity (p : GCMPrim) (version content_type : Nat)
    (key iv hk : Bytes) (e d : StreamCipherState) (msgs : List Bytes) :
    (GCMCryptoContext.encryptMany p version content_type
        (TLSContext.new key iv hk) msgs).sequence = msgs.length ∧
    (GCMCryptoContext.encryptMany p version content_type
        (TLSContext.new key iv hk) msgs).nonce = msgs.length ∧
    (StreamCryptoContext.encryptMany ⟨TLSContext.new key iv hk, e, d⟩ msgs).ctx.sequence
      = msgs.length := by
  have hg := gcm_encryptMany_counters p version content_type msgs (TLSContext.new key iv hk)
  have hs := stream_encryptMany_sequence msgs ⟨TLSContext.new key iv hk, e, d⟩
  refine ⟨?_, ?_, ?_⟩
  · rw [hg.1]
    simp [TLSContext.new]
  · rw [hg.2]
    simp [TLSContext.new]
  · rw [hs]
    simp [TLSContext.new]

/-- Claim C10: on a record of the shape explicit nonce, inner ciphertext, tag,
GCM decrypt returns nonce, decrypted payload and tag re-concatenated, sets the
local nonce counter to the wire nonce value and advances the sequence number;
the recorded tag check compares the tag recomputed over the inner ciphertext
with the wire tag. -/
theorem gcm_decrypt_format (p : GCMPrim) (version content_type : Nat)
    (ctx : TLSContext) (en c t : Bytes) (hen : en.length = 8) (ht : t.length = 16) :
    GCMCryptoContext.decrypt p version ctx (en ++ c ++ t) content_type
      = { output := en ++ p.dec ctx.symKey (ctx.symIv ++ en) c ++ t,
          tag_ok := p.tag ctx.symKey (ctx.symIv ++ en)
              (gcmAead ctx.sequence content_type version c.length) c == t,
          ctx := { ctx with nonce := unpackQ en, sequence := ctx.sequence + 1 } } := by
  have hec : (en ++ c).length = (en ++ c ++ t).length - 16 := by
    simp [List.length_append, hen, ht]
    omega
  have h1 : (en ++ c ++ t).take ((en ++ c ++ t).length - 16) = en ++ c :=
    List.take_left' hec
  have h2 : (en ++ c).drop 8 = c := List.drop_left' hen
  have h3 : (en ++ c ++ t).drop ((en ++ c ++ t).length - 16) = t :=
    List.drop_left' hec
  have h4 : (en ++ c ++ t).take 8 = en := by
    rw [List.append_assoc]
    exact List.take_left' hen
  simp only [GCMCryptoContext.decrypt, GCMCryptoContext.get_nonce, GCM_TAG_SIZE,
    GCM_EXPLICIT_IV_SIZE, h1, h2, h3, h4, Option.getD_some]

/-- Witness for gcm_decrypt_format on a concrete record with the identity
keystream. -/
theorem gcm_decrypt_format_witness :
    GCMCryptoContext.decrypt
        ⟨fun _ _ d => d, fun _ _ d => d, fun _ _ _ _ => List.replicate 16 0⟩
        771 (TLSContext.new [] [9, 9, 9, 9] [])
        ([0, 0, 0, 0, 0, 0, 0, 2] ++ [7, 8] ++ List.replicate 16 3) 23
      = { output := [0, 0, 0, 0, 0, 0, 0, 2] ++ [7, 8] ++ List.replicate 16 3,
          tag_ok := List.replicate 16 0 == List.replicate 16 3,
          ctx := { TLSContext.new [] [9, 9, 9, 9] [] with nonce := 2, sequence := 1 } } := by
  have h := gcm_decrypt_format
    ⟨fun _ _ d => d, fun _ _ d => d, fun _ _ _ _ => List.replicate 16 0⟩
    771 23 (TLSContext.new [] [9, 9, 9, 9] [])
    [0, 0, 0, 0, 0, 0, 0, 2] [7, 8] (List.replicate 16 3) (by decide) (by decide)
  rw [h]
  have hu : unpackQ [0, 0, 0, 0, 0, 0, 0, 2] = 2 := by decide
  simp [hu, TLSContext.new]

/-- Concatenating the blocks gives back the data, for any positive block size. -/
lemma toBlocksAux_flatten (B : Nat) (hB : 0 < B) :
    ∀ (fuel : Nat) (data : Bytes), data.length ≤ fuel →
      (toBlocksAux B fuel data).flatten = data := by
  intro fuel
  induction fuel with
  | zero =>
    intro data h
    have : data = [] := List.eq_nil_of_length_eq_zero (Nat.le_zero.mp h)
    simp [this, toBlocksAux]
  | succ n ih =>
    intro data h
    by_cases hd : data = []
    · simp [hd, toBlocksAux]
    · have hpos : 0 < data.length := List.length_pos.mpr hd
      have hdrop : (data.drop B).length ≤ n := by
        rw [List.length_drop]
        omega
      have hstep : toBlocksAux B (n + 1) data
          = data.take B :: toBlocksAux B n (data.drop B) := by
        simp [toBlocksAux, hd]
      rw [hstep, List.flatten_cons, ih (data.drop B) hdrop, List.take_append_drop]

/-- toBlocks reassembles to the original data. -/
lemma toBlocks_flatten (B : Nat) (hB : 0 < B) (data : Bytes) :
    (toBlocks B data).flatten = data := by
  unfold toBlocks
  rw [if_neg (Nat.pos_iff_ne_zero.mp hB)]
  exact toBlocksAux_flatten B hB data.length data (Nat.le_refl _)

/-- When the data length is a multiple of the block size, every block is full. -/
lemma toBlocksAux_mem_length (B : Nat) (hB : 0 < B) :
    ∀ (fuel : Nat) (data : Bytes), data.length ≤ fuel → data.length % B = 0 →
      ∀ b ∈ toBlocksAux B fuel data, b.length = B := by
  intro fuel
  induction fuel with
  | zero =>
    intro data h _ b hb
    have : data = [] := List.eq_nil_of_length_eq_zero (Nat.le_zero.mp h)
    simp [this, toBlocksAux] at hb
  | succ n ih =>
    intro data h hmod b hb
    by_cases hd : data = []
    · simp [hd, toBlocksAux] at hb
    · have hpos : 0 < data.length := List.length_pos.mpr hd
      have hdvd : B ∣ data.length := Nat.dvd_of_mod_eq_zero hmod
      have hle : B ≤ data.length := Nat.le_of_dvd hpos hdvd
      have hdvd2 : B ∣ (data.length - B) := Nat.dvd_sub' hdvd (dvd_refl B)
      obtain ⟨q2, hq2⟩ := hdvd2
      have hdropmod : (data.drop B).length % B = 0 := by
        rw [List.length_drop, hq2]
        simp [Nat.mul_mod_right]
      have hdrople : (data.drop B).length ≤ n := by
        rw [List.length_drop]
        omega
      have hstep : toBlocksAux B (n + 1) data
          = data.take B :: toBlocksAux B n (data.drop B) := by
        simp [toBlocksAux, hd]
      rw [hstep, List.mem_cons] at hb
      rcases hb with hb | hb
      · rw [hb, List.length_take]
        omega
      · exact ih (data.drop B) hdrople hdropmod b hb

/-- When the input is a whole number of blocks and the raw block decryption
preserves lengths, CBC decryption preserves the total length. -/
lemma cbcDecBlocks_flatten_length (decB : Bytes → Bytes)
    (hdec : ∀ b, (decB b).length = b.length) :
    ∀ (blocks : List Bytes) (chain : Bytes),
      (∀ b ∈ blocks, b.length = chain.length) →
      ((cbcDecBlocks decB chain blocks).flatten).length = blocks.flatten.length := by
  intro blocks
  induction blocks with
  | nil =>
    intro chain _
    simp [cbcDecBlocks]
  | cons c cs ih =>
    intro chain hmem
    have hc : c.length = chain.length := hmem c (List.mem_cons_self c cs)
    have hcs : ∀ b ∈ cs, b.length = c.length := by
      intro b hb
      rw [hc]
      exact hmem b (List.mem_cons_of_mem c hb)
    simp only [cbcDecBlocks, List.flatten_cons, List.length_append, List.length_zipWith,
      hdec, ih c hcs, hc, Nat.min_self]

/-- Claim C9: stream and CBC decrypt return the raw cipher output of the whole
framed record, trailing MAC, padding and padding-length byte included, never
checking the record MAC or the padding: the result has the full record length,
does not depend on the MAC key, and the operation always succeeds, only
advancing the sequence number. -/
theorem stream_cbc_decrypt_no_verification :
    (∀ (s : StreamCryptoContext) (ct h : Bytes),
      ((s.decrypt ct).1).length = ct.length ∧
      (StreamCryptoContext.decrypt
          { s with ctx := { s.ctx with hmacKey := h } } ct).1 = (s.decrypt ct).1 ∧
      (s.decrypt ct).2.ctx.sequence = s.ctx.sequence + 1) ∧
    (∀ (c : CBCCryptoContext) (decB : Bytes → Bytes) (ct h chain : Bytes),
      (if c.requires_iv then c.init_ciphers else c).dec_chain = some chain →
      (∀ b, (decB b).length = b.length) →
      chain.length = c.block_size →
      ct.length % c.block_size = 0 →
      0 < c.block_size →
      (CBCCryptoContext.decrypt decB c ct).map Prod.fst
          = some ((cbcDecBlocks decB chain (toBlocks c.block_size ct)).flatten) ∧
      ((cbcDecBlocks decB chain (toBlocks c.block_size ct)).flatten).length = ct.length ∧
      (CBCCryptoContext.decrypt decB c ct).map (fun r => r.2.ctx.sequence)
          = some (c.ctx.sequence + 1) ∧
      (CBCCryptoContext.decrypt decB
          { c with ctx := { c.ctx with hmacKey := h } } ct).map Prod.fst
        = some ((cbcDecBlocks decB chain (toBlocks c.block_size ct)).flatten)) := by
  constructor
  · intro s ct h
    refine ⟨?_, ?_, ?_⟩
    · simp [StreamCryptoContext.decrypt, StreamCipherState.apply]
    · simp [StreamCryptoContext.decrypt, StreamCipherState.apply]
    · simp [StreamCryptoContext.decrypt]
  · intro c decB ct h chain hch hdec hclen hmod hB
    have hmem : ∀ b ∈ toBlocks c.block_size ct, b.length = chain.length := by
      intro b hb
      rw [hclen]
      unfold toBlocks at hb
      rw [if_neg (Nat.pos_iff_ne_zero.mp hB)] at hb
      exact toBlocksAux_mem_length c.block_size hB ct.length ct (Nat.le_refl _) hmod b hb
    have hout : ((cbcDecBlocks decB chain (toBlocks c.block_size ct)).flatten).length
        = ct.length := by
      rw [cbcDecBlocks_flatten_length decB hdec (toBlocks c.block_size ct) chain hmem,
        toBlocks_flatten c.block_size hB ct]
    cases hr : c.requires_iv with
    | true =>
      simp only [hr, if_pos, CBCCryptoContext.init_ciphers,
        Option.some.injEq] at hch
      refine ⟨?_, hout, ?_, ?_⟩ <;>
        simp [CBCCryptoContext.decrypt, CBCCryptoContext.init_ciphers, hr, hch]
    | false =>
      simp only [hr, Bool.false_eq_true, if_neg, not_false_eq_true] at hch
      refine ⟨?_, hout, ?_, ?_⟩ <;>
        simp [CBCCryptoContext.decrypt, hr, hch]

/-- Witness for stream_cbc_decrypt_no_verification on a two-block record fed to
a freshly constructed explicit-IV CBC context with the identity block cipher. -/
theorem stream_cbc_decrypt_no_verification_witness :
    (CBCCryptoContext.decrypt (fun b => b)
        (CBCCryptoContext.new true 4 (TLSContext.new [] [] []))
        [1, 2, 3, 4, 5, 6, 7, 8]).map Prod.fst
      = some ((cbcDecBlocks (fun b => b) (List.replicate 4 0)
          (toBlocks 4 [1, 2, 3, 4, 5, 6, 7, 8])).flatten) ∧
    ((cbcDecBlocks (fun b => b) (List.replicate 4 0)
        (toBlocks 4 [1, 2, 3, 4, 5, 6, 7, 8])).flatten).length = 8 := by
  have h := (stream_cbc_decrypt_no_verification).2
    (CBCCryptoContext.new true 4 (TLSContext.new [] [] [])) (fun b => b)
    [1, 2, 3, 4, 5, 6, 7, 8] [] (List.replicate 4 0)
    (by decide) (fun b => rfl) (by decide) (by decide) (by decide)
  exact ⟨h.1, by simpa using h.2.1⟩

/-- Appending the next chunk extends the chunk concatenation. -/
lemma pHashChunks_succ (hmac : Hmac) (key ls : Bytes) (n : Nat) :
    pHashChunks hmac key ls (n + 1)
      = pHashChunks hmac key ls n ++ hmac key (pHashA hmac key ls (n + 1) ++ ls) := by
  simp [pHashChunks, List.range_succ]

/-- Length of the chunk concatenation under a fixed digest size. -/
lemma pHashChunks_length (hmac : Hmac) (key ls : Bytes) (ds : Nat)
    (h : ∀ m, (hmac key m).length = ds) (n : Nat) :
    (pHashChunks hmac key ls n).length = n * ds := by
  induction n with
  | zero => simp [pHashChunks]
  | succ k ih =>
    rw [pHashChunks_succ, List.length_append, ih, h]
    ring

/-- The chunk concatenation only grows: the first m chunks stay a prefix. -/
lemma pHashChunks_add (hmac : Hmac) (key ls : Bytes) (m : Nat) :
    ∀ k, ∃ t, pHashChunks hmac key ls (m + k) = pHashChunks hmac key ls m ++ t := by
  intro k
  induction k with
  | zero => exact ⟨[], by simp⟩
  | succ j ih =>
    obtain ⟨t, ht⟩ := ih
    refine ⟨t ++ hmac key (pHashA hmac key ls (m + j + 1) ++ ls), ?_⟩
    rw [show m + (j + 1) = (m + j) + 1 from rfl, pHashChunks_succ, ht, List.append_assoc]

/-- Loop of TLSPRF._get_bytes against the closed chunk form: starting from the
first j chunks with block A(j+1) and enough fuel, the truncated result equals
the truncated chunk concatenation. -/
lemma prfLoop_take (hmac : Hmac) (key ls : Bytes) (numBytes ds : Nat)
    (hds : 0 < ds) (hlen : ∀ m, (hmac key m).length = ds) :
    ∀ (fuel j : Nat), numBytes ≤ (j + fuel) * ds →
      (prfLoop hmac key ls fuel (pHashA hmac key ls (j + 1))
          (pHashChunks hmac key ls j) numBytes).take numBytes
        = (pHashChunks hmac key ls (j + fuel)).take numBytes := by
  intro fuel
  induction fuel with
  | zero =>
    intro j hle
    simp [prfLoop]
  | succ n ih =>
    intro j hle
    by_cases hc : (pHashChunks hmac key ls j).length < numBytes
    · have hstep : prfLoop hmac key ls (n + 1) (pHashA hmac key ls (j + 1))
          (pHashChunks hmac key ls j) numBytes
          = prfLoop hmac key ls n (hmac key (pHashA hmac key ls (j + 1)))
            (pHashChunks hmac key ls j ++ hmac key (pHashA hmac key ls (j + 1) ++ ls))
            numBytes := by
        simp [prfLoop, hc]
      have h1 : hmac key (pHashA hmac key ls (j + 1)) = pHashA hmac key ls (j + 1 + 1) := by
        simp [pHashA]
      have h2 : pHashChunks hmac key ls j ++ hmac key (pHashA hmac key ls (j + 1) ++ ls)
          = pHashChunks hmac key ls (j + 1) := (pHashChunks_succ hmac key ls j).symm
      rw [hstep, h1, h2, ih (j + 1) (by
        have : (j + 1 + n) * ds = (j + (n + 1)) * ds := by ring
        rw [this]
        exact hle)]
      have : j + 1 + n = j + (n + 1) := by omega
      rw [this]
    · have hstep : prfLoop hmac key ls (n + 1) (pHashA hmac key ls (j + 1))
          (pHashChunks hmac key ls j) numBytes = pHashChunks hmac key ls j := by
        simp [prfLoop, hc]
      rw [hstep]
      obtain ⟨t, ht⟩ := pHashChunks_add hmac key ls j (n + 1)
      rw [ht, List.take_append_of_le_length (by omega)]

/-- TLSPRF._get_bytes computes the closed-form P_hash expansion whenever the
digest has a fixed positive size. -/
lemma _get_bytes_eq_pHashSpec (hmac : Hmac) (key label random : Bytes)
    (numBytes ds : Nat) (hds : 0 < ds) (hlen : ∀ m, (hmac key m).length = ds) :
    TLSPRF._get_bytes hmac key label random numBytes
      = pHashSpec hmac key (label ++ random) numBytes := by
  unfold TLSPRF._get_bytes pHashSpec
  have h0 : hmac key (label ++ random) = pHashA hmac key (label ++ random) (0 + 1) := by
    simp [pHashA]
  have hacc : ([] : Bytes) = pHashChunks hmac key (label ++ random) 0 := by
    simp [pHashChunks]
  rw [h0, hacc, prfLoop_take hmac key (label ++ random) numBytes ds hds hlen numBytes 0
    (by simpa using Nat.le_mul_of_pos_right numBytes hds)]
  simp

/-- TLSPRF._get_bytes produces exactly numBytes bytes for a fixed positive
digest size. -/
lemma _get_bytes_length (hmac : Hmac) (key label random : Bytes)
    (numBytes ds : Nat) (hds : 0 < ds) (hlen : ∀ m, (hmac key m).length = ds) :
    (TLSPRF._get_bytes hmac key label random numBytes).length = numBytes := by
  rw [_get_bytes_eq_pHashSpec hmac key label random numBytes ds hds hlen]
  unfold pHashSpec
  rw [List.length_take, pHashChunks_length hmac key (label ++ random) ds hlen numBytes]
  have := Nat.le_mul_of_pos_right numBytes hds
  omega

/-- Claim C3: TLSPRF.get_bytes returns exactly numBytes bytes; for TLS 1.2 and
above it is the truncated single-digest P_hash expansion with A(1) the HMAC of
label and seed, chunks HMAC(secret, A(i), label, seed) and A(i+1) the HMAC of
A(i); below TLS 1.2 it is the byte-wise XOR of the MD5 expansion keyed with the
first half of the secret, rounded up, and the SHA-1 expansion keyed with the
last half, rounded up, the halves overlapping for odd secret lengths. -/
theorem tlsprf_get_bytes_spec (v : Nat) (hD hM hS : Hmac) (key label random : Bytes)
    (n dsD dsM dsS : Nat)
    (hd : ∀ k m, (hD k m).length = dsD) (hd1 : 0 < dsD)
    (hm : ∀ k m, (hM k m).length = dsM) (hm1 : 0 < dsM)
    (hs : ∀ k m, (hS k m).length = dsS) (hs1 : 0 < dsS) :
    (TLSPRF.get_bytes v hD hM hS key label random n).length = n ∧
    (TLSVersion.TLS_1_2 ≤ v →
      TLSPRF.get_bytes v hD hM hS key label random n
        = pHashSpec hD key (label ++ random) n) ∧
    (v < TLSVersion.TLS_1_2 →
      TLSPRF.get_bytes v hD hM hS key label random n
        = List.zipWith Nat.xor
            (pHashSpec hM (key.take ((key.length + 1) / 2)) (label ++ random) n)
            (pHashSpec hS (key.drop (key.length - (key.length + 1) / 2))
              (label ++ random) n)) := by
  by_cases hv : TLSVersion.TLS_1_2 ≤ v
  · have heq : TLSPRF.get_bytes v hD hM hS key label random n
        = TLSPRF._get_bytes hD key label random n := by
      simp [TLSPRF.get_bytes, hv]
    refine ⟨?_, fun _ => ?_, fun hlt => absurd hv (by omega)⟩
    · rw [heq]
      exact _get_bytes_length hD key label random n dsD hd1 (hd key)
    · rw [heq]
      exact _get_bytes_eq_pHashSpec hD key label random n dsD hd1 (hd key)
  · have heq : TLSPRF.get_bytes v hD hM hS key label random n
        = List.zipWith (fun a b => Nat.xor a b)
            (TLSPRF._get_bytes hM (key.take ((key.length + 1) / 2)) label random n)
            (TLSPRF._get_bytes hS (key.drop (key.length - (key.length + 1) / 2))
              label random n) := by
      simp [TLSPRF.get_bytes, hv]
    have hmd : TLSPRF._get_bytes hM (key.take ((key.length + 1) / 2)) label random n
        = pHashSpec hM (key.take ((key.length + 1) / 2)) (label ++ random) n :=
      _get_bytes_eq_pHashSpec hM _ label random n dsM hm1 (hm _)
    have hsh : TLSPRF._get_bytes hS (key.drop (key.length - (key.length + 1) / 2))
          label random n
        = pHashSpec hS (key.drop (key.length - (key.length + 1) / 2)) (label ++ random) n :=
      _get_bytes_eq_pHashSpec hS _ label random n dsS hs1 (hs _)
    have hmlen : (TLSPRF._get_bytes hM (key.take ((key.length + 1) / 2))
        label random n).length = n :=
      _get_bytes_length hM _ label random n dsM hm1 (hm _)
    have hslen : (TLSPRF._get_bytes hS (key.drop (key.length - (key.length + 1) / 2))
        label random n).length = n :=
      _get_bytes_length hS _ label random n dsS hs1 (hs _)
    refine ⟨?_, fun hge => absurd hge hv, fun _ => ?_⟩
    · rw [heq, List.length_zipWith, hmlen, hslen, Nat.min_self]
    · rw [heq, hmd, hsh]

/-- Witness for tlsprf_get_bytes_spec below TLS 1.2 with fixed-size digests. -/
theorem tlsprf_get_bytes_spec_witness :
    (TLSPRF.get_bytes TLSVersion.TLS_1_0 (fun _ _ => [0])
        (fun _ _ => List.replicate 16 1) (fun _ _ => List.replicate 20 2)
        [1, 2, 3] [4] [5] 5).length = 5 :=
  (tlsprf_get_bytes_spec TLSVersion.TLS_1_0 (fun _ _ => [0])
    (fun _ _ => List.replicate 16 1) (fun _ _ => List.replicate 20 2)
    [1, 2, 3] [4] [5] 5 1 16 20
    (fun _ _ => rfl) (by decide) (fun _ _ => rfl) (by decide)
    (fun _ _ => rfl) (by decide)).1

/-- Six successive slices of lengths m, m, k, k, v, v cover a block of exactly
that total length. -/
lemma six_slices (data : Bytes) (m k v : Nat)
    (hlen : data.length = m + m + k + k + v + v) :
    data.take m ++ ((data.drop m).take m ++ ((data.drop (m + m)).take k
      ++ ((data.drop (m + m + k)).take k ++ ((data.drop (m + m + k + k)).take v
        ++ (data.drop (m + m + k + k + v)).take v)))) = data := by
  have hlast : (data.drop (m + m + k + k + v)).take v = data.drop (m + m + k + k + v) := by
    apply List.take_of_length_le
    rw [List.length_drop]
    omega
  rw [hlast, List.drop_take_append_drop, List.drop_take_append_drop,
    List.drop_take_append_drop, List.drop_take_append_drop, List.take_append_drop]

/-- Claim C2: the master secret is the PRF of the premaster secret under the
master-secret label over client random then server random, 48 bytes long; the
key-expansion block is the PRF of the master secret under the key-expansion
label over server random then client random, of length twice the MAC, cipher
key and IV lengths; the block is sliced in order into client MAC key, server
MAC key, client cipher key, server cipher key, client IV and server IV, whose
concatenation is the whole block. -/
theorem master_secret_and_key_expansion (sp : TLSSecurityParameters)
    (pms cr sr : Bytes) (hprf : ∀ k l s n, (sp.prf k l s n).length = n) :
    sp.generate_master_secret pms cr sr
      = sp.prf pms TLS_MD_MASTER_SECRET_CONST (cr ++ sr) 48 ∧
    (sp.generate_master_secret pms cr sr).length = 48 ∧
    sp.init_keys cr sr (sp.generate_master_secret pms cr sr)
      = sp.init_key_material
          (sp.prf (sp.generate_master_secret pms cr sr) TLS_MD_KEY_EXPANSION_CONST
            (sr ++ cr) (2 * (sp.mac_key_length + sp.cipher_key_length + sp.iv_length))) ∧
    (∀ data : Bytes,
      data.length = 2 * (sp.mac_key_length + sp.cipher_key_length + sp.iv_length) →
      (sp.init_key_material data).client_mac_key.length = sp.mac_key_length ∧
      (sp.init_key_material data).server_mac_key.length = sp.mac_key_length ∧
      (sp.init_key_material data).client_key.length = sp.cipher_key_length ∧
      (sp.init_key_material data).server_key.length = sp.cipher_key_length ∧
      (sp.init_key_material data).client_iv.length = sp.iv_length ∧
      (sp.init_key_material data).server_iv.length = sp.iv_length ∧
      (sp.init_key_material data).client_mac_key
          ++ (sp.init_key_material data).server_mac_key
          ++ (sp.init_key_material data).client_key
          ++ (sp.init_key_material data).server_key
          ++ (sp.init_key_material data).client_iv
          ++ (sp.init_key_material data).server_iv
        = data) := by
  refine ⟨rfl, hprf pms TLS_MD_MASTER_SECRET_CONST (cr ++ sr) 48, rfl, ?_⟩
  intro data hdata
  have hm : data.length = sp.mac_key_length + sp.mac_key_length + sp.cipher_key_length
      + sp.cipher_key_length + sp.iv_length + sp.iv_length := by omega
  refine ⟨?_, ?_, ?_, ?_, ?_, ?_, ?_⟩
  · simp only [TLSSecurityParameters.init_key_material, List.length_take,
      List.length_drop]
    omega
  · simp only [TLSSecurityParameters.init_key_material, List.length_take,
      List.length_drop]
    omega
  · simp only [TLSSecurityParameters.init_key_material, List.length_take,
      List.length_drop]
    omega
  · simp only [TLSSecurityParameters.init_key_material, List.length_take,
      List.length_drop]
    omega
  · simp only [TLSSecurityParameters.init_key_material, List.length_take,
      List.length_drop]
    omega
  · simp only [TLSSecurityParameters.init_key_material, List.length_take,
      List.length_drop]
    omega
  · simp only [TLSSecurityParameters.init_key_material, List.drop_zero,
      List.append_assoc]
    exact six_slices data sp.mac_key_length sp.cipher_key_length sp.iv_length hm

/-- Witness for master_secret_and_key_expansion with a PRF returning the
requested number of 7 bytes and sizes 2, 3 and 1. -/
theorem master_secret_and_key_expansion_witness :
    (TLSSecurityParameters.generate_master_secret
        ⟨fun _ _ _ n => List.replicate n 7, 2, 3, 1⟩ [1] [2] [3]).length = 48 :=
  (master_secret_and_key_expansion ⟨fun _ _ _ n => List.replicate n 7, 2, 3, 1⟩
    [1] [2] [3] (fun _ _ _ n => List.length_replicate n 7)).2.1
